import Mathlib

/-!
Verification of the `RoleBasedAccessControl` evaluator (src/core/rbac.ts).

The class holds six pieces of state: a `Set` of direct permissions, a `Set`
of assigned roles, a role-definition object (role → permission array), a
`Set` of direct restrictions, a current sector (`string | null`), and a
sector-restriction object (sector → permission array).

JavaScript `Set`s preserve insertion order and hold unique elements; we model
them as `List String` where `add` appends when absent and `delete` removes
the element.  Plain objects are modelled as association lists with
first-match lookup (keys are unique in any actual object, but first-match
lookup is correct regardless).  `obj[key] ?? []` becomes `lookupDef`.

The `if (this.sector)` guard in the source is a JavaScript truthiness test:
it fails both for `null` and for the empty string, which we model by an
explicit `String.isEmpty` test on the `some` branch.

A second, heap-based model (`Heap`, `RBACObj`, `view`) captures reference
aliasing for the copy-on-read properties: collections live in heap cells
addressed by `Nat` references, accessors that build `new Set(...)` allocate
a fresh cell, and `getRolePermissions` / `getSectorRestrictedPermissions`
return the stored array reference itself, exactly as the source does.
-/

namespace RBAC

/-- JS `obj[key] ?? []`: first-match association-list lookup defaulting to `[]`. -/
def lookupDef : List (String × List String) → String → List String
  | [], _ => []
  | (k, v) :: rest, key => if k = key then v else lookupDef rest key

/-- JS `Set.prototype.add`: append the element when it is not already present. -/
def addSet (acc : List String) (p : String) : List String :=
  if acc.contains p then acc else acc ++ [p]

/-- JS `new Set(xs)`: insert the elements of `xs` in order. -/
def mkSet (xs : List String) : List String :=
  xs.foldl addSet []

/-- The mutable fields of a `RoleBasedAccessControl` instance, as values. -/
structure RBACState where
  permissions : List String
  roles : List String
  roleDefinitions : List (String × List String)
  restrictions : List String
  sector : Option String
  sectorRestrictions : List (String × List String)
deriving DecidableEq

/-- `isRestricted` (rbac.ts lines 73–88): direct restrictions first, then the
current sector's restriction list, guarded by JS truthiness of `this.sector`. -/
def isRestricted (st : RBACState) (perm : String) : Bool :=
  if st.restrictions.contains perm then true
  else
    match st.sector with
    | some s =>
      if s.isEmpty then false
      else (lookupDef st.sectorRestrictions s).contains perm
    | none => false

/-- `hasPermission` (rbac.ts lines 367–387): restrictions deny first, then
direct permissions grant, then any assigned role's definition list grants. -/
def hasPermission (st : RBACState) (perm : String) : Bool :=
  if isRestricted st perm then false
  else if st.permissions.contains perm then true
  else st.roles.any fun role => (lookupDef st.roleDefinitions role).contains perm

/-- `getAllPermissions` (rbac.ts lines 103–121): copy the direct permissions,
add every assigned role's permissions, then keep the unrestricted ones. -/
def getAllPermissions (st : RBACState) : List String :=
  let allPerms :=
    st.roles.foldl (fun acc role => (lookupDef st.roleDefinitions role).foldl addSet acc)
      (mkSet st.permissions)
  allPerms.foldl (fun acc p => if isRestricted st p then acc else addSet acc p) []

/-- `getAllRestrictions` (rbac.ts lines 252–262): copy the direct restrictions
and, when the sector is truthy, add its restriction list. -/
def getAllRestrictions (st : RBACState) : List String :=
  let allRestrictions := mkSet st.restrictions
  match st.sector with
  | some s =>
    if s.isEmpty then allRestrictions
    else (lookupDef st.sectorRestrictions s).foldl addSet allRestrictions
  | none => allRestrictions

/-- `isPermissionRestricted` (rbac.ts lines 445–447). -/
def isPermissionRestricted (st : RBACState) (perm : String) : Bool :=
  isRestricted st perm

/-- `addPermissions` (rbac.ts lines 137–140), state part. -/
def addPermissions (st : RBACState) (perms : List String) : RBACState :=
  { st with permissions := perms.foldl addSet st.permissions }

/-- `removePermissions` (rbac.ts lines 147–150), state part. -/
def removePermissions (st : RBACState) (perms : List String) : RBACState :=
  { st with permissions := perms.foldl (fun acc p => acc.erase p) st.permissions }

/-- `addRoles` (rbac.ts lines 174–177), state part. -/
def addRoles (st : RBACState) (roles : List String) : RBACState :=
  { st with roles := roles.foldl addSet st.roles }

/-- `removeRoles` (rbac.ts lines 184–187), state part. -/
def removeRoles (st : RBACState) (roles : List String) : RBACState :=
  { st with roles := roles.foldl (fun acc r => acc.erase r) st.roles }

/-- `addRestrictions` (rbac.ts lines 278–281), state part. -/
def addRestrictions (st : RBACState) (perms : List String) : RBACState :=
  { st with restrictions := perms.foldl addSet st.restrictions }

/-- `removeRestrictions` (rbac.ts lines 288–291), state part. -/
def removeRestrictions (st : RBACState) (perms : List String) : RBACState :=
  { st with restrictions := perms.foldl (fun acc p => acc.erase p) st.restrictions }

/-- `setSector` (rbac.ts lines 313–315). -/
def setSector (st : RBACState) (sector : Option String) : RBACState :=
  { st with sector := sector }

/-- `hasRole` (rbac.ts lines 194–196). -/
def hasRole (st : RBACState) (role : String) : Bool :=
  st.roles.contains role

/-- The `string | string[]` union taken by `can` and `hasRoles`. -/
inductive StrArg where
  | single : String → StrArg
  | list : List String → StrArg

/-- `can` (rbac.ts lines 414–422) with the `every` flag explicit. -/
def can (st : RBACState) (perms : StrArg) (every : Bool) : Bool :=
  match perms with
  | .single p => hasPermission st p
  | .list ps =>
    if every then ps.all fun p => hasPermission st p
    else ps.any fun p => hasPermission st p

/-- `can` called without the `every` argument (source default `true`). -/
def canDefault (st : RBACState) (perms : StrArg) : Bool :=
  can st perms true

/-- `hasRoles` (rbac.ts lines 430–438) with the `every` flag explicit. -/
def hasRoles (st : RBACState) (roles : StrArg) (every : Bool) : Bool :=
  match roles with
  | .single r => hasRole st r
  | .list rs =>
    if every then rs.all fun r => hasRole st r
    else rs.any fun r => hasRole st r

/-- `hasRoles` called without the `every` argument (source default `false`). -/
def hasRolesDefault (st : RBACState) (roles : StrArg) : Bool :=
  hasRoles st roles false

/-! ## Heap model for reference aliasing

The copy-on-read properties are about JavaScript object identity: a `Set` or
array returned by an accessor is either a fresh object or the evaluator's own
internal object.  We model the mutable store explicitly: a heap maps `Nat`
references to cells, a cell is a JS array, a JS `Set`, or a plain object
whose values are array references (matching `roleDefinitions` and
`sectorRestrictions`, whose property values are arrays). -/

/-- A mutable JavaScript collection stored in the heap. -/
inductive JsCell where
  | arrC : List String → JsCell
  | setC : List String → JsCell
  | objC : List (String × Nat) → JsCell

/-- The heap: allocation counter plus cell contents. -/
structure Heap where
  next : Nat
  cells : Nat → Option JsCell

/-- Allocate a fresh cell, returning its reference and the new heap. -/
def alloc (h : Heap) (c : JsCell) : Nat × Heap :=
  (h.next, ⟨h.next + 1, fun r => if r = h.next then some c else h.cells r⟩)

/-- Overwrite the contents of an existing cell (a caller-side mutation of the
collection stored at `r`, e.g. `set.add(x)` or `arr.push(x)`). -/
def writeCell (h : Heap) (r : Nat) (c : JsCell) : Heap :=
  ⟨h.next, fun r' => if r' = r then some c else h.cells r'⟩

/-- Read a `Set` cell's contents (other cells read as empty). -/
def readSet (h : Heap) (r : Nat) : List String :=
  match h.cells r with
  | some (JsCell.setC xs) => xs
  | _ => []

/-- Read an array cell's contents (other cells read as empty). -/
def readArr (h : Heap) (r : Nat) : List String :=
  match h.cells r with
  | some (JsCell.arrC xs) => xs
  | _ => []

/-- Read an object cell's key/reference pairs (other cells read as empty). -/
def readObj (h : Heap) (r : Nat) : List (String × Nat) :=
  match h.cells r with
  | some (JsCell.objC m) => m
  | _ => []

/-- Read an object cell as a value table by dereferencing its array values. -/
def readTable (h : Heap) (r : Nat) : List (String × List String) :=
  (readObj h r).map fun kv => (kv.1, readArr h kv.2)

/-- First-match lookup of a reference in an object cell's pairs. -/
def lookupRef : List (String × Nat) → String → Option Nat
  | [], _ => none
  | (k, r) :: rest, key => if k = key then some r else lookupRef rest key

/-- An evaluator instance: its collection-valued fields are heap references,
its `sector` field is a primitive held by value. -/
structure RBACObj where
  permissionsR : Nat
  rolesR : Nat
  roleDefinitionsR : Nat
  restrictionsR : Nat
  sector : Option String
  sectorRestrictionsR : Nat

/-- The pure value of an evaluator instance under a heap. -/
def view (h : Heap) (o : RBACObj) : RBACState :=
  { permissions := readSet h o.permissionsR
    roles := readSet h o.rolesR
    roleDefinitions := readTable h o.roleDefinitionsR
    restrictions := readSet h o.restrictionsR
    sector := o.sector
    sectorRestrictions := readTable h o.sectorRestrictionsR }

/-- Every value reference stored in the object cell at `r` is allocated. -/
def objRefsBelow (h : Heap) (r : Nat) : Bool :=
  match h.cells r with
  | some (JsCell.objC m) => m.all fun kv => decide (kv.2 < h.next)
  | _ => true

/-- Well-formed instance: all of its references point below the allocation
counter, including the array references inside its two object cells. -/
def wfObj (h : Heap) (o : RBACObj) : Bool :=
  decide (o.permissionsR < h.next) && decide (o.rolesR < h.next) &&
    decide (o.roleDefinitionsR < h.next) && decide (o.restrictionsR < h.next) &&
    decide (o.sectorRestrictionsR < h.next) &&
    objRefsBelow h o.roleDefinitionsR && objRefsBelow h o.sectorRestrictionsR

/-- `getPermissions` (rbac.ts lines 94–96): `new Set(this.permissions)`
allocates a fresh `Set` holding the internal set's elements. -/
def getPermissionsH (o : RBACObj) (h : Heap) : Nat × Heap :=
  alloc h (JsCell.setC (readSet h o.permissionsR))

/-- `getRoles` (rbac.ts lines 156–158): fresh `Set` copy of the roles. -/
def getRolesH (o : RBACObj) (h : Heap) : Nat × Heap :=
  alloc h (JsCell.setC (readSet h o.rolesR))

/-- `getRestrictions` (rbac.ts lines 244–246): fresh `Set` copy. -/
def getRestrictionsH (o : RBACObj) (h : Heap) : Nat × Heap :=
  alloc h (JsCell.setC (readSet h o.restrictionsR))

/-- `getAllPermissions` (rbac.ts lines 103–121): the computed effective set is
built in a freshly allocated `Set`. -/
def getAllPermissionsH (o : RBACObj) (h : Heap) : Nat × Heap :=
  alloc h (JsCell.setC (getAllPermissions (view h o)))

/-- `getAllRestrictions` (rbac.ts lines 252–262): freshly allocated `Set`. -/
def getAllRestrictionsH (o : RBACObj) (h : Heap) : Nat × Heap :=
  alloc h (JsCell.setC (getAllRestrictions (view h o)))

/-- `getRolePermissions` (rbac.ts lines 236–238):
`return this.roleDefinitions[role] ?? []` — when the role is defined this
returns the stored array itself (no copy); only the `?? []` fallback
allocates a fresh empty array. -/
def getRolePermissionsH (o : RBACObj) (role : String) (h : Heap) : Nat × Heap :=
  match lookupRef (readObj h o.roleDefinitionsR) role with
  | some r => (r, h)
  | none => alloc h (JsCell.arrC [])

/-- `getSectorRestrictedPermissions` (rbac.ts lines 357–359):
`return this.sectorRestrictions[sector] ?? []` — same aliasing as
`getRolePermissions`. -/
def getSectorRestrictedPermissionsH (o : RBACObj) (sector : String) (h : Heap) :
    Nat × Heap :=
  match lookupRef (readObj h o.sectorRestrictionsR) sector with
  | some r => (r, h)
  | none => alloc h (JsCell.arrC [])

/-! ## Concrete instances used in closed statements -/

/-- A state whose current sector is the empty string while the empty-string
key of the sector-restriction table lists a directly granted permission. -/
def stEmptySector : RBACState :=
  ⟨["read"], [], [], [], some "", [("", ["read"])]⟩

/-- A state where every kind of element is present once, for exercising the
idempotent add/remove operations. -/
def stIdem : RBACState :=
  ⟨["a"], ["r"], [], ["x"], none, []⟩

/-- A state that already has the role `editor` assigned, with `editor`
conferring `write` and no other grant source for `write`. -/
def stEditorAssigned : RBACState :=
  ⟨[], ["editor"], [("editor", ["write"])], [], none, []⟩

/-- Like `stEditorAssigned` but with the `editor` role not yet assigned. -/
def stEditorFree : RBACState :=
  ⟨[], [], [("editor", ["write"])], [], none, []⟩

/-- A state with the empty-string sector current, a direct restriction, and a
non-empty restriction list under the empty-string key. -/
def stEmptySectorRich : RBACState :=
  ⟨["read"], [], [], ["del"], some "", [("", ["read", "extra"])]⟩

/-- A concrete six-cell heap: an instance's four sets and two tables, with
the role-definition object mapping `editor` to the array at reference 3. -/
def heap0 : Heap :=
  ⟨6, fun r =>
    if r = 0 then some (JsCell.setC [])
    else if r = 1 then some (JsCell.setC ["editor"])
    else if r = 2 then some (JsCell.objC [("editor", 3)])
    else if r = 3 then some (JsCell.arrC ["write"])
    else if r = 4 then some (JsCell.setC [])
    else if r = 5 then some (JsCell.objC [])
    else none⟩

/-- The instance living in `heap0`. -/
def obj0 : RBACObj := ⟨0, 1, 2, 4, none, 5⟩

/-! ## Membership lemmas for the set operations -/

lemma contains_true_iff (xs : List String) (a : String) :
    xs.contains a = true ↔ a ∈ xs := by
  simp

lemma mem_addSet (acc : List String) (p a : String) :
    a ∈ addSet acc p ↔ a ∈ acc ∨ a = p := by
  simp only [addSet]
  split
  · rename_i hc
    rw [contains_true_iff] at hc
    constructor
    · exact Or.inl
    · rintro (h | rfl)
      · exact h
      · exact hc
  · simp

lemma mem_foldl_addSet (xs acc : List String) (a : String) :
    a ∈ xs.foldl addSet acc ↔ a ∈ acc ∨ a ∈ xs := by
  induction xs generalizing acc with
  | nil => simp
  | cons x xs ih =>
    simp only [List.foldl_cons, ih, mem_addSet, List.mem_cons]
    tauto

lemma mem_mkSet (xs : List String) (a : String) : a ∈ mkSet xs ↔ a ∈ xs := by
  simp [mkSet, mem_foldl_addSet]

lemma mem_foldl_roles (roles : List String) (defs : List (String × List String))
    (acc : List String) (a : String) :
    a ∈ roles.foldl (fun acc role => (lookupDef defs role).foldl addSet acc) acc ↔
      a ∈ acc ∨ ∃ role ∈ roles, a ∈ lookupDef defs role := by
  induction roles generalizing acc with
  | nil => simp
  | cons r rs ih =>
    simp only [List.foldl_cons, ih, mem_foldl_addSet, List.mem_cons]
    constructor
    · rintro ((h | h) | ⟨role, hm, hl⟩)
      · exact Or.inl h
      · exact Or.inr ⟨r, Or.inl rfl, h⟩
      · exact Or.inr ⟨role, Or.inr hm, hl⟩
    · rintro (h | ⟨role, (rfl | hm), hl⟩)
      · exact Or.inl (Or.inl h)
      · exact Or.inl (Or.inr hl)
      · exact Or.inr ⟨role, hm, hl⟩

lemma mem_foldl_filterRestricted (st : RBACState) (xs acc : List String) (a : String) :
    a ∈ xs.foldl (fun acc p => if isRestricted st p then acc else addSet acc p) acc ↔
      a ∈ acc ∨ (a ∈ xs ∧ isRestricted st a = false) := by
  induction xs generalizing acc with
  | nil => simp
  | cons x xs ih =>
    simp only [List.foldl_cons]
    cases hr : isRestricted st x with
    | true =>
      rw [if_pos rfl, ih]
      simp only [List.mem_cons]
      constructor
      · rintro (h | ⟨h1, h2⟩)
        · exact Or.inl h
        · exact Or.inr ⟨Or.inr h1, h2⟩
      · rintro (h | ⟨(rfl | h1), h2⟩)
        · exact Or.inl h
        · rw [hr] at h2
          cases h2
        · exact Or.inr ⟨h1, h2⟩
    | false =>
      rw [if_neg (by simp), ih]
      simp only [mem_addSet, List.mem_cons]
      constructor
      · rintro ((h | rfl) | ⟨h1, h2⟩)
        · exact Or.inl h
        · exact Or.inr ⟨Or.inl rfl, hr⟩
        · exact Or.inr ⟨Or.inr h1, h2⟩
      · rintro (h | ⟨(rfl | h1), h2⟩)
        · exact Or.inl (Or.inl h)
        · exact Or.inl (Or.inr rfl)
        · exact Or.inr ⟨h1, h2⟩

/-! ## Frame lemmas for the heap model: writing through a freshly allocated
reference leaves every previously allocated cell unchanged. -/

lemma cells_after_fresh_write (h : Heap) (c c' : JsCell) (r : Nat)
    (hr : r < h.next) :
    (writeCell (alloc h c).2 (alloc h c).1 c').cells r = h.cells r := by
  have hne : r ≠ h.next := Nat.ne_of_lt hr
  simp [writeCell, alloc, hne]

lemma readSet_after_fresh_write (h : Heap) (c c' : JsCell) (r : Nat)
    (hr : r < h.next) :
    readSet (writeCell (alloc h c).2 (alloc h c).1 c') r = readSet h r := by
  unfold readSet
  rw [cells_after_fresh_write h c c' r hr]

lemma readArr_after_fresh_write (h : Heap) (c c' : JsCell) (r : Nat)
    (hr : r < h.next) :
    readArr (writeCell (alloc h c).2 (alloc h c).1 c') r = readArr h r := by
  unfold readArr
  rw [cells_after_fresh_write h c c' r hr]

lemma readObj_after_fresh_write (h : Heap) (c c' : JsCell) (r : Nat)
    (hr : r < h.next) :
    readObj (writeCell (alloc h c).2 (alloc h c).1 c') r = readObj h r := by
  unfold readObj
  rw [cells_after_fresh_write h c c' r hr]

lemma readTable_after_fresh_write (h : Heap) (c c' : JsCell) (r : Nat)
    (hr : r < h.next) (hb : objRefsBelow h r = true) :
    readTable (writeCell (alloc h c).2 (alloc h c).1 c') r = readTable h r := by
  unfold readTable
  rw [readObj_after_fresh_write h c c' r hr]
  apply List.map_congr_left
  intro kv hkv
  have hlt : kv.2 < h.next := by
    unfold objRefsBelow at hb
    unfold readObj at hkv
    cases hcell : h.cells r with
    | none => rw [hcell] at hkv; cases hkv
    | some cell =>
      cases cell with
      | arrC xs => rw [hcell] at hkv; cases hkv
      | setC xs => rw [hcell] at hkv; cases hkv
      | objC m =>
        rw [hcell] at hb hkv
        rw [List.all_eq_true] at hb
        exact of_decide_eq_true (hb kv hkv)
  rw [readArr_after_fresh_write h c c' kv.2 hlt]

lemma wfObj_parts (h : Heap) (o : RBACObj) (hwf : wfObj h o = true) :
    o.permissionsR < h.next ∧ o.rolesR < h.next ∧ o.roleDefinitionsR < h.next ∧
      o.restrictionsR < h.next ∧ o.sectorRestrictionsR < h.next ∧
      objRefsBelow h o.roleDefinitionsR = true ∧
      objRefsBelow h o.sectorRestrictionsR = true := by
  unfold wfObj at hwf
  simp only [Bool.and_eq_true, decide_eq_true_eq] at hwf
  exact ⟨hwf.1.1.1.1.1.1, hwf.1.1.1.1.1.2, hwf.1.1.1.1.2, hwf.1.1.1.2, hwf.1.1.2,
    hwf.1.2, hwf.2⟩

lemma view_after_fresh_write (h : Heap) (o : RBACObj) (c c' : JsCell)
    (hwf : wfObj h o = true) :
    view (writeCell (alloc h c).2 (alloc h c).1 c') o = view h o := by
  obtain ⟨h1, h2, h3, h4, h5, h6, h7⟩ := wfObj_parts h o hwf
  unfold view
  rw [readSet_after_fresh_write h c c' _ h1, readSet_after_fresh_write h c c' _ h2,
    readTable_after_fresh_write h c c' _ h3 h6, readSet_after_fresh_write h c c' _ h4,
    readTable_after_fresh_write h c c' _ h5 h7]

/-! ## Claim theorems -/

/-- C1 counterexample: the claim fails when the current sector is the empty
string.  In `stEmptySector` a sector is set (`some ""`), `"read"` appears in
that sector's restriction list, yet `hasPermission` returns `true`, because
the source guards the sector lookup with a JS truthiness test that the empty
string fails. -/
theorem restriction_precedence_cex :
    stEmptySector.sector = some "" ∧
    "read" ∈ lookupDef stEmptySector.sectorRestrictions "" ∧
    hasPermission stEmptySector "read" = true := by
  refine ⟨rfl, ?_, ?_⟩ <;> decide

/-- C1 (amended): if a permission is in the direct-restriction set, or a
current sector is set to a non-empty name and the permission appears in that
sector's restriction list, then `hasPermission` returns `false`, regardless
of any grant source. -/
theorem restriction_precedence (st : RBACState) (p : String)
    (h : p ∈ st.restrictions ∨
      ∃ s, st.sector = some s ∧ s.isEmpty = false ∧
        p ∈ lookupDef st.sectorRestrictions s) :
    hasPermission st p = false := by
  have hr : isRestricted st p = true := by
    unfold isRestricted
    rcases h with h | ⟨s, hs, hne, hmem⟩
    · rw [if_pos ((contains_true_iff _ _).2 h)]
    · rw [hs]
      cases hc : st.restrictions.contains p with
      | true => rw [if_pos rfl]
      | false =>
        rw [if_neg (by simp)]
        change (if s.isEmpty = true then false
          else (lookupDef st.sectorRestrictions s).contains p) = true
        rw [if_neg (by simp [hne])]
        exact (contains_true_iff _ _).2 hmem
  unfold hasPermission
  rw [if_pos hr]

/-- C1 witness: a permission granted both directly and through a role, and
also directly restricted, is denied. -/
theorem restriction_precedence_witness :
    hasPermission ⟨["read"], ["r1"], [("r1", ["read"])], ["read"], none, []⟩
      "read" = false :=
  restriction_precedence _ "read" (Or.inl (by decide))

/-- C3: for a permission that is neither in the direct-restriction set nor in
the current sector's restriction list, `hasPermission` returns `true` iff the
permission is directly granted or appears in some assigned role's
definition list. -/
theorem grant_characterization (st : RBACState) (p : String)
    (h1 : p ∉ st.restrictions)
    (h2 : ∀ s, st.sector = some s → p ∉ lookupDef st.sectorRestrictions s) :
    hasPermission st p = true ↔
      (p ∈ st.permissions ∨
        ∃ role ∈ st.roles, p ∈ lookupDef st.roleDefinitions role) := by
  have hr : isRestricted st p = false := by
    unfold isRestricted
    rw [if_neg (by simp [h1])]
    cases hs : st.sector with
    | none => rfl
    | some s =>
      cases he : s.isEmpty with
      | true => simp [he]
      | false => simp [he, h2 s hs]
  by_cases hc : p ∈ st.permissions
  · constructor
    · intro _
      exact Or.inl hc
    · intro _
      unfold hasPermission
      rw [if_neg (by simp [hr]), if_pos ((contains_true_iff _ _).2 hc)]
  · unfold hasPermission
    rw [if_neg (by simp [hr]), if_neg (by simp [hc])]
    simp only [List.any_eq_true, contains_true_iff]
    constructor
    · rintro ⟨role, hm, hl⟩
      exact Or.inr ⟨role, hm, hl⟩
    · rintro (h | ⟨role, hm, hl⟩)
      · exact absurd h hc
      · exact ⟨role, hm, hl⟩

/-- C3 witness: a directly granted, unrestricted permission is allowed. -/
theorem grant_characterization_witness :
    hasPermission ⟨["read"], [], [], [], none, []⟩ "read" = true :=
  (grant_characterization ⟨["read"], [], [], [], none, []⟩ "read" (by decide)
    (fun _ hs => nomatch hs)).2 (Or.inl (by decide))

/-- C4: a permission is in `getAllPermissions` exactly when it is directly
granted or conferred by some assigned role's definition list, and it is not
restricted per step 1 of the resolution algorithm (`isRestricted`, which
consults the direct restrictions and the sector current at call time). -/
theorem getAllPermissions_spec (st : RBACState) (p : String) :
    p ∈ getAllPermissions st ↔
      ((p ∈ st.permissions ∨
          ∃ role ∈ st.roles, p ∈ lookupDef st.roleDefinitions role) ∧
        isRestricted st p = false) := by
  unfold getAllPermissions
  rw [mem_foldl_filterRestricted]
  simp only [List.not_mem_nil, false_or, mem_foldl_roles, mem_mkSet]

/-- C5: calling `can` without the combinator argument uses the source default
`every = true` (all listed permissions must pass), while calling `hasRoles`
without it uses the source default `every = false` (at least one listed role
must be assigned). -/
theorem default_combinator_asymmetry (st : RBACState) (xs : List String) :
    canDefault st (StrArg.list xs) = can st (StrArg.list xs) true ∧
    hasRolesDefault st (StrArg.list xs) = hasRoles st (StrArg.list xs) false ∧
    can st (StrArg.list xs) true = xs.all (fun p => hasPermission st p) ∧
    hasRoles st (StrArg.list xs) false = xs.any (fun r => hasRole st r) :=
  ⟨rfl, rfl, rfl, rfl⟩

/-- C6: over the empty permission list, `can` returns `true` in EVERY mode
and `false` in SOME mode, for every evaluator state. -/
theorem empty_list_combinators (st : RBACState) :
    can st (StrArg.list []) true = true ∧ can st (StrArg.list []) false = false :=
  ⟨rfl, rfl⟩

/-- C7: `setSector` changes only the `sector` field; the direct permissions,
the assigned roles, the role-definition table, the direct restrictions, and
the sector-restriction table are all unchanged. -/
theorem setSector_frame (st : RBACState) (s : Option String) :
    (setSector st s).permissions = st.permissions ∧
    (setSector st s).roles = st.roles ∧
    (setSector st s).roleDefinitions = st.roleDefinitions ∧
    (setSector st s).restrictions = st.restrictions ∧
    (setSector st s).sectorRestrictions = st.sectorRestrictions ∧
    (setSector st s).sector = s :=
  ⟨rfl, rfl, rfl, rfl, rfl, rfl⟩

/-- C8: adding an already-present element with `addPermissions`, `addRoles`,
or `addRestrictions` leaves the state unchanged, and removing an absent
element with `removePermissions`, `removeRoles`, or `removeRestrictions`
likewise leaves the state unchanged. -/
theorem idempotent_mutation (st : RBACState) (a b c d e f : String) :
    (a ∈ st.permissions → addPermissions st [a] = st) ∧
    (b ∉ st.permissions → removePermissions st [b] = st) ∧
    (c ∈ st.roles → addRoles st [c] = st) ∧
    (d ∉ st.roles → removeRoles st [d] = st) ∧
    (e ∈ st.restrictions → addRestrictions st [e] = st) ∧
    (f ∉ st.restrictions → removeRestrictions st [f] = st) := by
  refine ⟨fun ha => ?_, fun hb => ?_, fun hc => ?_, fun hd => ?_,
    fun he => ?_, fun hf => ?_⟩
  · simp [addPermissions, addSet, ha]
  · simp [removePermissions, List.erase_of_not_mem hb]
  · simp [addRoles, addSet, hc]
  · simp [removeRoles, List.erase_of_not_mem hd]
  · simp [addRestrictions, addSet, he]
  · simp [removeRestrictions, List.erase_of_not_mem hf]

/-- C8 witness: on `stIdem`, re-adding each present element and removing an
absent one changes nothing. -/
theorem idempotent_mutation_witness :
    addPermissions stIdem ["a"] = stIdem ∧
    removePermissions stIdem ["zz"] = stIdem ∧
    addRoles stIdem ["r"] = stIdem ∧
    removeRoles stIdem ["zz"] = stIdem ∧
    addRestrictions stIdem ["x"] = stIdem ∧
    removeRestrictions stIdem ["zz"] = stIdem :=
  have T := idempotent_mutation stIdem "a" "zz" "r" "zz" "x" "zz"
  ⟨T.1 (by decide), T.2.1 (by decide), T.2.2.1 (by decide),
    T.2.2.2.1 (by decide), T.2.2.2.2.1 (by decide), T.2.2.2.2.2 (by decide)⟩

/-- C9 counterexample: the round trip does not restore `hasPermission` when
the role was already assigned.  In `stEditorAssigned`, `write` is conferred
only by the already-assigned role `editor` (it is not a direct permission and
`editor` is the only assigned role).  `addRoles ["editor"]` is a no-op and
`removeRoles ["editor"]` then removes the role, so `hasPermission "write"`
flips from `true` to `false`. -/
theorem role_round_trip_cex :
    hasPermission stEditorAssigned "write" = true ∧
    hasPermission (removeRoles (addRoles stEditorAssigned ["editor"])
      ["editor"]) "write" = false ∧
    "write" ∉ stEditorAssigned.permissions ∧
    stEditorAssigned.roles = ["editor"] := by
  refine ⟨?_, ?_, ?_, rfl⟩ <;> decide

/-- C9 (amended): provided the role being round-tripped is not already
assigned, `addRoles [r]` followed by `removeRoles [r]` restores the entire
evaluator state, and hence the result of `hasPermission` for every
permission. -/
theorem role_round_trip (st : RBACState) (r : String) (h : r ∉ st.roles) :
    removeRoles (addRoles st [r]) [r] = st ∧
    ∀ p, hasPermission (removeRoles (addRoles st [r]) [r]) p =
      hasPermission st p := by
  have hroles : (addSet st.roles r).erase r = st.roles := by
    unfold addSet
    rw [if_neg (by simp [h]), List.erase_append_right _ h]
    simp
  have hstate : removeRoles (addRoles st [r]) [r] = st := by
    simp [removeRoles, addRoles, hroles]
  exact ⟨hstate, fun p => by rw [hstate]⟩

/-- C9 witness: with `editor` not yet assigned, the round trip restores both
the state and the `write` query. -/
theorem role_round_trip_witness :
    removeRoles (addRoles stEditorFree ["editor"]) ["editor"] = stEditorFree ∧
    hasPermission (removeRoles (addRoles stEditorFree ["editor"]) ["editor"])
      "write" = hasPermission stEditorFree "write" :=
  have T := role_round_trip stEditorFree "editor" (by decide)
  ⟨T.1, T.2 "write"⟩

/-- C10: when the current sector is the empty string, the truthiness guard
fails, so only direct restrictions count: every permission outside the
direct-restriction set is unrestricted, and `getAllRestrictions` is exactly
the copy of the direct-restriction set, even when the empty-string key has a
non-empty list in the sector-restriction table. -/
theorem empty_sector_truthiness (st : RBACState) (h : st.sector = some "") :
    (∀ p, p ∉ st.restrictions → isPermissionRestricted st p = false) ∧
    getAllRestrictions st = mkSet st.restrictions := by
  constructor
  · intro p hp
    unfold isPermissionRestricted isRestricted
    rw [if_neg (by simp [hp]), h]
    rfl
  · unfold getAllRestrictions
    rw [h]
    rfl

/-- C10 witness: on `stEmptySectorRich` (sector `""`, direct restriction
`del`, non-empty list under the `""` key), `read` is unrestricted and the
effective restrictions are just the direct ones. -/
theorem empty_sector_truthiness_witness :
    isPermissionRestricted stEmptySectorRich "read" = false ∧
    getAllRestrictions stEmptySectorRich = mkSet stEmptySectorRich.restrictions :=
  have T := empty_sector_truthiness stEmptySectorRich rfl
  ⟨T.1 "read" (by decide), T.2⟩

/-- C2 counterexample: `getRolePermissions` does not return an independent
copy.  In `heap0`/`obj0` the role `editor` is defined with permission list
`["write"]` stored at reference 3; `getRolePermissionsH obj0 "editor"`
returns that internal reference, so overwriting the returned array with
`["write", "admin"]` (a caller-side `push`) changes the evaluator's own
role-definition table: `hasPermission "admin"` flips from `false` to
`true`. -/
theorem copy_on_read_cex :
    hasPermission
      (view (writeCell (getRolePermissionsH obj0 "editor" heap0).2
        (getRolePermissionsH obj0 "editor" heap0).1
        (JsCell.arrC ["write", "admin"])) obj0) "admin" = true ∧
    hasPermission (view heap0 obj0) "admin" = false ∧
    (getRolePermissionsH obj0 "editor" heap0).1 = 3 := by
  refine ⟨?_, ?_, ?_⟩ <;> decide

/-- C2 (amended): the `Set`-returning read-accessors (`getPermissions`,
`getRoles`, `getRestrictions`, `getAllPermissions`, `getAllRestrictions`)
return freshly allocated copies: for every well-formed instance, overwriting
the collection any of them returns leaves the evaluator's entire observable
state (its `view`, hence every subsequent accessor and query result, here
shown for `hasPermission`) unchanged. -/
theorem copy_on_read_set_accessors (h : Heap) (o : RBACObj) (c : JsCell)
    (hwf : wfObj h o = true) :
    view (writeCell (getPermissionsH o h).2 (getPermissionsH o h).1 c) o =
      view h o ∧
    view (writeCell (getRolesH o h).2 (getRolesH o h).1 c) o = view h o ∧
    view (writeCell (getRestrictionsH o h).2 (getRestrictionsH o h).1 c) o =
      view h o ∧
    view (writeCell (getAllPermissionsH o h).2 (getAllPermissionsH o h).1 c) o =
      view h o ∧
    view (writeCell (getAllRestrictionsH o h).2 (getAllRestrictionsH o h).1 c) o =
      view h o ∧
    ∀ p, hasPermission
      (view (writeCell (getPermissionsH o h).2 (getPermissionsH o h).1 c) o) p =
      hasPermission (view h o) p :=
  ⟨view_after_fresh_write h o _ c hwf, view_after_fresh_write h o _ c hwf,
    view_after_fresh_write h o _ c hwf, view_after_fresh_write h o _ c hwf,
    view_after_fresh_write h o _ c hwf,
    fun p => congrArg (fun st => hasPermission st p)
      (view_after_fresh_write h o (JsCell.setC (readSet h o.permissionsR)) c hwf)⟩

/-- C2 witness: on the concrete well-formed instance `heap0`/`obj0`,
overwriting the set returned by `getPermissions` leaves the view intact. -/
theorem copy_on_read_set_accessors_witness :
    view (writeCell (getPermissionsH obj0 heap0).2 (getPermissionsH obj0 heap0).1
      (JsCell.setC ["hacked"])) obj0 = view heap0 obj0 :=
  (copy_on_read_set_accessors heap0 obj0 (JsCell.setC ["hacked"]) (by decide)).1

end RBAC
